import Mathlib

/-!
Shallow embedding of the run-history persistence layer of
`src/lib/db.ts`: a SQLite table of run metadata (`runs`) plus an
IndexedDB object store of image blobs, with content-hash deduplication
for input images, unique keys for output images, whole-database
snapshot persistence after every mutation, and reference-aware deletion.

External browser primitives are modelled as explicit parameters:
* `crypto.subtle.digest("SHA-256", ·)` (used by `hashImage`) becomes an
  explicit digest function `hash : String → String`;
* the unique-key generator `img_${Date.now()}_${Math.random()...}`
  (used by `saveImageDeduped` with `forceNew = true`) becomes an
  explicit key argument supplied per call;
* IndexedDB transaction success/failure becomes explicit `Bool`
  parameters in the fallible (`...E`) variants of the operations.
-/

namespace CoverDB

/-- The IndexedDB `images` object store: an association of string keys to
string payloads (base64 image data), one entry per key. -/
abbrev Blobs := List (String × String)

/-- `store.get(key)` on the `images` object store: the payload stored
under `k`, if any. -/
def blobGet (bs : Blobs) (k : String) : Option String :=
  match bs with
  | [] => none
  | (k₀, v₀) :: rest => if k₀ = k then some v₀ else blobGet rest k

/-- `store.put(data, key)`: overwrite the entry at `k` if present,
otherwise add a new entry. -/
def blobPut (bs : Blobs) (k v : String) : Blobs :=
  match bs with
  | [] => [(k, v)]
  | (k₀, v₀) :: rest => if k₀ = k then (k, v) :: rest else (k₀, v₀) :: blobPut rest k v

/-- `store.delete(key)`: remove the entry at `k` (a no-op when absent). -/
def blobDelete (bs : Blobs) (k : String) : Blobs :=
  match bs with
  | [] => []
  | (k₀, v₀) :: rest => if k₀ = k then blobDelete rest k else (k₀, v₀) :: blobDelete rest k

/-- `imageExists` from `db.ts`: `get` the key and test the result
against `undefined`. -/
def imageExists (bs : Blobs) (imageId : String) : Bool :=
  (blobGet bs imageId).isSome

/-- `saveImageDeduped(data, forceNew)` from `db.ts`.  `hash` stands for
`hashImage` (SHA-256, truncated, `img_`-prefixed); `freshKey` stands for
the timestamp-plus-random key generated when `forceNew` is true.  With
`forceNew = false` the key is the content hash and an existing entry is
reused without writing; otherwise the data is written under the key. -/
def saveImageDeduped (hash : String → String) (freshKey : String)
    (bs : Blobs) (data : String) (forceNew : Bool) : String × Blobs :=
  let imageId := if forceNew then freshKey else hash data
  if forceNew = false ∧ imageExists bs imageId then (imageId, bs)
  else (imageId, blobPut bs imageId data)

/-- Fallible `saveImageDeduped`: `writeOk` models whether the IndexedDB
`readwrite` transaction commits.  A failed transaction leaves the store
unchanged; the dedup fast path performs no write and cannot fail. -/
def saveImageDedupedE (hash : String → String) (freshKey : String) (writeOk : Bool)
    (bs : Blobs) (data : String) (forceNew : Bool) : Except Blobs (String × Blobs) :=
  let imageId := if forceNew then freshKey else hash data
  if forceNew = false ∧ imageExists bs imageId then Except.ok (imageId, bs)
  else if writeOk then Except.ok (imageId, blobPut bs imageId data)
  else Except.error bs

/-- `loadImage(imageId)`: the stored payload, or `null` when absent. -/
def loadImage (bs : Blobs) (imageId : String) : Option String :=
  blobGet bs imageId

/-- One row of the `runs` table (the `RunRecord` shape).  `cost` is a
SQLite `REAL` on which the code performs no arithmetic; it is modelled
as an opaque exact value. -/
structure Row where
  id : Nat
  created_at : String
  model_id : String
  model_label : String
  prompt_template : String
  compiled_prompt : String
  new_title : String
  input_image_id : String
  output_image_id : String
  served_by : Option String
  route : Option String
  prompt_tokens : Option Int
  completion_tokens : Option Int
  total_tokens : Option Int
  cost : Option Rat
  duration_ms : Option Int
  human_comment : Option String
deriving DecidableEq

/-- The `RunInsert` argument of `saveRun`: metadata plus the actual
image payloads. -/
structure RunInsert where
  createdAt : String
  modelId : String
  modelLabel : String
  promptTemplate : String
  compiledPrompt : String
  newTitle : String
  inputImage : String
  outputImage : String
  servedBy : Option String
  route : Option String
  promptTokens : Option Int
  completionTokens : Option Int
  totalTokens : Option Int
  cost : Option Rat
  durationMs : Option Int
  humanComment : Option String
deriving DecidableEq

/-- Whole persistent state: the in-memory `runs` table (in rowid order),
the AUTOINCREMENT counter, the IndexedDB image store, and the last
flushed SQLite snapshot (the `sqlite` object store entry). -/
structure DBState where
  runs : List Row
  nextId : Nat
  blobs : Blobs
  snapshot : Option (List Row)
deriving DecidableEq

/-- State after `initDatabase` on a fresh browser profile: empty table
(AUTOINCREMENT starts at 1), empty image store, and an initial flush. -/
def initState : DBState :=
  { runs := [], nextId := 1, blobs := [], snapshot := some [] }

/-- The row built by `saveRun`'s `INSERT` from a `RunInsert`, the
assigned rowid and the two blob keys. -/
def rowOfInsert (run : RunInsert) (rid : Nat) (inputImageId outputImageId : String) : Row :=
  { id := rid
    created_at := run.createdAt
    model_id := run.modelId
    model_label := run.modelLabel
    prompt_template := run.promptTemplate
    compiled_prompt := run.compiledPrompt
    new_title := run.newTitle
    input_image_id := inputImageId
    output_image_id := outputImageId
    served_by := run.servedBy
    route := run.route
    prompt_tokens := run.promptTokens
    completion_tokens := run.completionTokens
    total_tokens := run.totalTokens
    cost := run.cost
    duration_ms := run.durationMs
    human_comment := run.humanComment }

/-- `saveRun(run)` from `db.ts`: store the input image via the
deduplicating path, the output image via the unique path (`outKey` is
the generated unique key), insert the metadata row, flush, and return
`last_insert_rowid()`. -/
def saveRun (hash : String → String) (outKey : String) (s : DBState) (run : RunInsert) :
    Nat × DBState :=
  let p1 := saveImageDeduped hash "" s.blobs run.inputImage false
  let p2 := saveImageDeduped hash outKey p1.2 run.outputImage true
  let row := rowOfInsert run s.nextId p1.1 p2.1
  let runs := s.runs ++ [row]
  (s.nextId, { runs := runs, nextId := s.nextId + 1, blobs := p2.2, snapshot := some runs })

/-- Fallible `saveRun`: `inOk`/`outOk` model the two IndexedDB write
transactions started by `Promise.all`.  When either write fails the
rejection propagates before the SQL `INSERT`, but the sibling write
still commits; the error carries the state at that point. -/
def saveRunE (hash : String → String) (outKey : String) (inOk outOk : Bool)
    (s : DBState) (run : RunInsert) : Except DBState (Nat × DBState) :=
  match saveImageDedupedE hash "" inOk s.blobs run.inputImage false with
  | Except.error bs1 =>
    match saveImageDedupedE hash outKey outOk bs1 run.outputImage true with
    | Except.error bs2 => Except.error { s with blobs := bs2 }
    | Except.ok p2 => Except.error { s with blobs := p2.2 }
  | Except.ok p1 =>
    match saveImageDedupedE hash outKey outOk p1.2 run.outputImage true with
    | Except.error bs2 => Except.error { s with blobs := bs2 }
    | Except.ok p2 =>
      let row := rowOfInsert run s.nextId p1.1 p2.1
      let runs := s.runs ++ [row]
      Except.ok (s.nextId, { runs := runs, nextId := s.nextId + 1, blobs := p2.2,
                             snapshot := some runs })

/-- SQLite `TEXT` comparison (BINARY collation, memcmp): strict
lexicographic order on the character sequences.  Codepoint order agrees
with UTF-8 byte order, so comparing codepoints models memcmp. -/
def bytesLt : List Char → List Char → Bool
  | _, [] => false
  | [], _ :: _ => true
  | a :: as, b :: bs =>
    if a.toNat < b.toNat then true
    else if b.toNat < a.toNat then false
    else bytesLt as bs

/-- Strict `TEXT` order on strings, as compared by `ORDER BY`. -/
def textLt (x y : String) : Bool :=
  bytesLt x.data y.data

/-- The comparison realized by `ORDER BY created_at DESC`: row `a` may
come before row `b` when `a.created_at` is not strictly below
`b.created_at`. -/
def rowGE (a b : Row) : Prop :=
  textLt a.created_at b.created_at = false

instance : DecidableRel rowGE := fun a b =>
  inferInstanceAs (Decidable (textLt a.created_at b.created_at = false))

theorem bytesLt_asymm : ∀ x y : List Char, bytesLt x y = true → bytesLt y x = false
  | [], [] => by simp [bytesLt]
  | _ :: _, [] => by simp [bytesLt]
  | [], _ :: _ => by simp [bytesLt]
  | a :: as, b :: bs => by
    simp only [bytesLt]
    intro h
    by_cases hab : a.toNat < b.toNat
    · have hba : ¬ b.toNat < a.toNat := by omega
      simp [hab, hba]
    · by_cases hba : b.toNat < a.toNat
      · simp [hab, hba] at h
      · simp [hab, hba] at h ⊢
        exact bytesLt_asymm as bs h

theorem bytesLt_not_trans :
    ∀ x y z : List Char, bytesLt x y = false → bytesLt y z = false → bytesLt x z = false
  | x, _, [] => by intro _ _; cases x <;> simp [bytesLt]
  | x, [], _ :: _ => by intro _ h2; simp [bytesLt] at h2
  | [], _ :: _, _ :: _ => by intro h1 _; simp [bytesLt] at h1
  | a :: as, b :: bs, c :: cs => by
    simp only [bytesLt]
    intro h1 h2
    by_cases hab : a.toNat < b.toNat
    · simp [hab] at h1
    · by_cases hbc : b.toNat < c.toNat
      · simp [hbc] at h2
      · by_cases hac : a.toNat < c.toNat
        · omega
        · by_cases hca : c.toNat < a.toNat
          · simp [hac, hca]
          · have hba : ¬ b.toNat < a.toNat := by omega
            have hcb : ¬ c.toNat < b.toNat := by omega
            simp [hab, hba] at h1
            simp [hbc, hcb] at h2
            simp [hac, hca]
            exact bytesLt_not_trans as bs cs h1 h2

instance : IsTotal Row rowGE := by
  refine ⟨fun a b => ?_⟩
  unfold rowGE textLt
  by_cases h : bytesLt a.created_at.data b.created_at.data = true
  · exact Or.inr (bytesLt_asymm _ _ h)
  · exact Or.inl (by simpa using h)

instance : IsTrans Row rowGE :=
  ⟨fun _ _ _ hab hbc => bytesLt_not_trans _ _ _ hab hbc⟩

/-- `getRuns()` from `db.ts`: `SELECT ... FROM runs ORDER BY created_at
DESC`.  The query names no tiebreak; the engine feeds the table scan (in
rowid order) into its sorter, modelled here as a stable sort by the
`created_at` key alone. -/
def getRuns (s : DBState) : List Row :=
  List.insertionSort rowGE s.runs

/-- `getRunById(id)`: `SELECT ... FROM runs WHERE id = ?`, first
matching row via `stmt.step()`, or `null`. -/
def getRunById (s : DBState) (rid : Nat) : Option Row :=
  s.runs.find? (fun r => r.id == rid)

/-- `loadImagesForRun(run)`: resolve both blob keys; an absent blob
yields the empty payload (`?? ""`), never an error. -/
def loadImagesForRun (bs : Blobs) (run : Row) : String × String :=
  ((loadImage bs run.input_image_id).getD "", (loadImage bs run.output_image_id).getD "")

/-- `updateRunComment(id, comment)`: `UPDATE runs SET human_comment = ?
WHERE id = ?`, then flush. -/
def updateRunComment (s : DBState) (rid : Nat) (comment : String) : DBState :=
  let runs := s.runs.map (fun r => if r.id = rid then { r with human_comment := some comment } else r)
  { s with runs := runs, snapshot := some runs }

/-- The reference-count query of `deleteRun`: `SELECT COUNT(*) FROM runs
WHERE input_image_id = ? AND id != ?`. -/
def countOtherInputRefs (s : DBState) (inputId : String) (rid : Nat) : Nat :=
  (s.runs.filter (fun r => r.input_image_id = inputId ∧ r.id ≠ rid)).length

/-- `deleteRun(id)` from `db.ts`: read the row (absent ⇒ no-op), count
other rows sharing its input key, delete the row, flush, delete the
output blob unconditionally and the input blob only when the count was
zero. -/
def deleteRun (s : DBState) (rid : Nat) : DBState :=
  match getRunById s rid with
  | none => s
  | some run =>
    let cnt := countOtherInputRefs s run.input_image_id rid
    let runs := s.runs.filter (fun r => r.id ≠ rid)
    let bs1 := blobDelete s.blobs run.output_image_id
    let bs2 := if cnt = 0 then blobDelete bs1 run.input_image_id else bs1
    { runs := runs, nextId := s.nextId, blobs := bs2, snapshot := some runs }

/-- Fallible `deleteRun`: `flushOk` models the snapshot write after the
row deletion, `delOutOk`/`delInOk` the two IndexedDB delete
transactions issued via `Promise.all` (the input delete is only issued
when the reference count was zero).  A failed transaction leaves its
target unchanged; the in-memory row deletion always precedes the first
fallible step. -/
def deleteRunE (flushOk delOutOk delInOk : Bool) (s : DBState) (rid : Nat) :
    Except DBState DBState :=
  match getRunById s rid with
  | none => Except.ok s
  | some run =>
    let cnt := countOtherInputRefs s run.input_image_id rid
    let runs := s.runs.filter (fun r => r.id ≠ rid)
    if flushOk = false then Except.error { s with runs := runs }
    else
      let s2 : DBState := { s with runs := runs, snapshot := some runs }
      let bs1 := if delOutOk then blobDelete s2.blobs run.output_image_id else s2.blobs
      let bs2 := if cnt = 0 ∧ delInOk then blobDelete bs1 run.input_image_id else bs1
      let s3 : DBState := { s2 with blobs := bs2 }
      if delOutOk ∧ (cnt ≠ 0 ∨ delInOk) then Except.ok s3 else Except.error s3

/-- Every key that occurs anywhere in the state: image-store keys and
the blob keys referenced from rows. -/
def allKeys (s : DBState) : List String :=
  s.blobs.map (fun p => p.1) ++ s.runs.map Row.input_image_id ++ s.runs.map Row.output_image_id

/-- States reachable from a fresh store by the public mutating
operations.  The two side conditions on `save` model the shape of the
real keys: a generated unique key (`img_` + millisecond timestamp + `_`
+ random suffix) never equals an existing key, and a content hash
(`img_` + 16 hex digits, a disjoint format) never equals a unique
output key. -/
inductive Reachable (hash : String → String) : DBState → Prop where
  | init : Reachable hash initState
  | save (s : DBState) (run : RunInsert) (outKey : String)
      (hr : Reachable hash s)
      (hfresh : outKey ∉ allKeys s)
      (hdisj : ∀ r ∈ s.runs, hash run.inputImage ≠ r.output_image_id) :
      Reachable hash (saveRun hash outKey s run).2
  | update (s : DBState) (rid : Nat) (c : String) (hr : Reachable hash s) :
      Reachable hash (updateRunComment s rid c)
  | del (s : DBState) (rid : Nat) (hr : Reachable hash s) :
      Reachable hash (deleteRun s rid)

/-- Number of stored copies of payload `B` in the image store. -/
def copiesOf (bs : Blobs) (B : String) : Nat :=
  (bs.filter (fun p => p.2 = B)).length

end CoverDB

namespace CoverDB

/-! ### Basic lemmas about the image store -/

theorem blobGet_blobPut_self (bs : Blobs) (k v : String) :
    blobGet (blobPut bs k v) k = some v := by
  induction bs with
  | nil => simp [blobPut, blobGet]
  | cons p rest ih =>
    obtain ⟨k₀, v₀⟩ := p
    by_cases h : k₀ = k
    · simp [blobPut, blobGet, h]
    · simp [blobPut, blobGet, h, ih]

theorem blobGet_blobPut_ne (bs : Blobs) (k' k v : String) (hne : k' ≠ k) :
    blobGet (blobPut bs k' v) k = blobGet bs k := by
  induction bs with
  | nil => simp [blobPut, blobGet, hne]
  | cons p rest ih =>
    obtain ⟨k₀, v₀⟩ := p
    by_cases h : k₀ = k'
    · subst h
      simp [blobPut, blobGet, hne, ih]
    · simp [blobPut, blobGet, h, ih]

theorem blobGet_blobDelete_self (bs : Blobs) (k : String) :
    blobGet (blobDelete bs k) k = none := by
  induction bs with
  | nil => simp [blobDelete, blobGet]
  | cons p rest ih =>
    obtain ⟨k₀, v₀⟩ := p
    by_cases h : k₀ = k
    · simp [blobDelete, blobGet, h, ih]
    · simp [blobDelete, blobGet, h, ih]

theorem blobGet_blobDelete_ne (bs : Blobs) (k' k : String) (hne : k' ≠ k) :
    blobGet (blobDelete bs k') k = blobGet bs k := by
  induction bs with
  | nil => simp [blobDelete, blobGet]
  | cons p rest ih =>
    obtain ⟨k₀, v₀⟩ := p
    by_cases h : k₀ = k'
    · subst h
      simp [blobDelete, blobGet, hne, ih]
    · simp [blobDelete, blobGet, h, ih]

theorem blobPut_of_get_none (bs : Blobs) (k v : String) (h : blobGet bs k = none) :
    blobPut bs k v = bs ++ [(k, v)] := by
  induction bs with
  | nil => simp [blobPut]
  | cons p rest ih =>
    obtain ⟨k₀, v₀⟩ := p
    by_cases hk : k₀ = k
    · simp [blobGet, hk] at h
    · simp [blobGet, hk] at h
      simp [blobPut, hk, ih h]

theorem isSome_blobGet_blobPut (bs : Blobs) (k' v k : String)
    (h : (blobGet bs k).isSome) : (blobGet (blobPut bs k' v) k).isSome := by
  by_cases hk : k' = k
  · subst hk
    simp [blobGet_blobPut_self]
  · rwa [blobGet_blobPut_ne bs k' k v hk]

/-! ### Lemmas about the deduplicating and unique save paths -/

theorem saveImageDeduped_fst_dedup (hash : String → String) (fk : String)
    (bs : Blobs) (d : String) : (saveImageDeduped hash fk bs d false).1 = hash d := by
  by_cases h : imageExists bs (hash d) <;> simp [saveImageDeduped, h]

theorem saveImageDeduped_fst_unique (hash : String → String) (fk : String)
    (bs : Blobs) (d : String) : (saveImageDeduped hash fk bs d true).1 = fk := by
  simp [saveImageDeduped, imageExists]

theorem saveImageDeduped_snd_unique (hash : String → String) (fk : String)
    (bs : Blobs) (d : String) :
    (saveImageDeduped hash fk bs d true).2 = blobPut bs fk d := by
  simp [saveImageDeduped, imageExists]

/-- After the deduplicating save, the content-hash key holds the
pre-existing payload if there was one, and the new payload otherwise. -/
theorem dedup_get_self (hash : String → String) (fk : String) (bs : Blobs) (d : String) :
    blobGet (saveImageDeduped hash fk bs d false).2 (hash d) =
      some ((blobGet bs (hash d)).getD d) := by
  simp only [saveImageDeduped, imageExists]
  rcases h : blobGet bs (hash d) with _ | v
  · simp [h, blobGet_blobPut_self]
  · simp [h]

/-- The deduplicating save never touches other keys. -/
theorem dedup_get_ne (hash : String → String) (fk : String) (bs : Blobs) (d k : String)
    (hk : k ≠ hash d) :
    blobGet (saveImageDeduped hash fk bs d false).2 k = blobGet bs k := by
  simp only [saveImageDeduped, imageExists]
  rcases h : blobGet bs (hash d) with _ | v
  · simp [h, blobGet_blobPut_ne bs (hash d) k d (Ne.symm hk)]
  · simp [h]

theorem isSome_dedup (hash : String → String) (fk : String) (bs : Blobs) (d k : String)
    (h : (blobGet bs k).isSome) :
    (blobGet (saveImageDeduped hash fk bs d false).2 k).isSome := by
  by_cases hk : k = hash d
  · subst hk
    simp [dedup_get_self]
  · rwa [dedup_get_ne hash fk bs d k hk]

end CoverDB

namespace CoverDB

/-! ### Concrete fixtures used by witnesses and counterexamples -/

/-- A metadata row with fixed filler metadata. -/
def mkRow (rid : Nat) (ca inK outK : String) : Row :=
  { id := rid, created_at := ca, model_id := "m", model_label := "ml",
    prompt_template := "pt", compiled_prompt := "cp", new_title := "t",
    input_image_id := inK, output_image_id := outK,
    served_by := none, route := none, prompt_tokens := none,
    completion_tokens := none, total_tokens := none, cost := none,
    duration_ms := none, human_comment := none }

/-- Two runs sharing the deduplicated input blob `\"i\"`, saved in the
same millisecond (equal `created_at`). -/
def sTwo : DBState :=
  { runs := [mkRow 1 "T" "i" "o1", mkRow 2 "T" "i" "o2"],
    nextId := 3,
    blobs := [("i", "A"), ("o1", "B"), ("o2", "C")],
    snapshot := some [mkRow 1 "T" "i" "o1", mkRow 2 "T" "i" "o2"] }

/-- A single run whose input blob nothing else references. -/
def sOne : DBState :=
  { runs := [mkRow 1 "T" "i" "o1"],
    nextId := 2,
    blobs := [("i", "A"), ("o1", "B")],
    snapshot := some [mkRow 1 "T" "i" "o1"] }

/-- A concrete stand-in for the truncated SHA-256 digest. -/
def hash0 (d : String) : String := String.append "h" d

/-- A concrete `RunInsert`. -/
def run0 : RunInsert :=
  { createdAt := "T1", modelId := "m", modelLabel := "ml", promptTemplate := "pt",
    compiledPrompt := "cp", newTitle := "t", inputImage := "A", outputImage := "B",
    servedBy := none, route := none, promptTokens := none, completionTokens := none,
    totalTokens := none, cost := none, durationMs := none, humanComment := none }

/-! ### C6: dedup idempotence -/

theorem saveImageDeduped_dedup_hit (hash : String → String) (fk : String) (bs : Blobs)
    (d : String) (h : imageExists bs (hash d) = true) :
    saveImageDeduped hash fk bs d false = (hash d, bs) := by
  simp [saveImageDeduped, h]

theorem saveImageDeduped_dedup_miss (hash : String → String) (fk : String) (bs : Blobs)
    (d : String) (h : imageExists bs (hash d) = false) :
    saveImageDeduped hash fk bs d false = (hash d, blobPut bs (hash d) d) := by
  simp [saveImageDeduped, h]

/-- C6: calling the deduplicating put (`saveImageDeduped` with
`forceNew = false`) twice with the same bytes `B` returns the
content-hash key both times, the second call does not change the store,
and the store then holds exactly one copy of `B` (starting from a store
that holds no copy of `B` and has the hash key free). -/
theorem putDeduped_idempotent (hash : String → String) (B : String) (bs : Blobs)
    (hkey : blobGet bs (hash B) = none)
    (hval : ∀ p ∈ bs, p.2 ≠ B) :
    (saveImageDeduped hash "" bs B false).1 = hash B
    ∧ (saveImageDeduped hash "" (saveImageDeduped hash "" bs B false).2 B false).1 = hash B
    ∧ (saveImageDeduped hash "" (saveImageDeduped hash "" bs B false).2 B false).2
        = (saveImageDeduped hash "" bs B false).2
    ∧ copiesOf (saveImageDeduped hash "" (saveImageDeduped hash "" bs B false).2 B false).2 B
        = 1 := by
  have hex : imageExists bs (hash B) = false := by
    simp [imageExists, hkey]
  have h1 : saveImageDeduped hash "" bs B false = (hash B, blobPut bs (hash B) B) :=
    saveImageDeduped_dedup_miss hash "" bs B hex
  have hex2 : imageExists (blobPut bs (hash B) B) (hash B) = true := by
    simp [imageExists, blobGet_blobPut_self]
  have h2 : saveImageDeduped hash "" (blobPut bs (hash B) B) B false
      = (hash B, blobPut bs (hash B) B) :=
    saveImageDeduped_dedup_hit hash "" (blobPut bs (hash B) B) B hex2
  have hput : blobPut bs (hash B) B = bs ++ [(hash B, B)] :=
    blobPut_of_get_none bs (hash B) B hkey
  have hfil : copiesOf bs B = 0 := by
    simp only [copiesOf, List.length_eq_zero]
    exact List.filter_eq_nil_iff.mpr (fun p hp => by simpa using hval p hp)
  have hsplit : copiesOf (bs ++ [(hash B, B)]) B = copiesOf bs B + copiesOf [(hash B, B)] B := by
    simp [copiesOf, List.filter_append]
  refine ⟨by rw [h1], by rw [h1, h2], by rw [h1, h2], ?_⟩
  rw [h1, h2, hput, hsplit, hfil]
  simp [copiesOf]

/-- C6 witness: the dedup round on the empty store with payload `"B"`. -/
theorem putDeduped_idempotent_witness :
    copiesOf (saveImageDeduped hash0 "" (saveImageDeduped hash0 "" [] "B" false).2 "B" false).2 "B"
      = 1 :=
  (putDeduped_idempotent hash0 "B" [] rfl (by simp)).2.2.2

/-! ### C7: unique non-collision -/

/-- C7: two calls of the unique put (`saveImageDeduped` with
`forceNew = true`) with identical bytes `B` return the two generated
keys — distinct, since the timestamp-plus-random generator never
repeats a key — and afterwards both keys resolve to `B`. -/
theorem putUnique_noCollision (hash : String → String) (k1 k2 B : String) (bs : Blobs)
    (hne : k1 ≠ k2) :
    (saveImageDeduped hash k1 bs B true).1 = k1
    ∧ (saveImageDeduped hash k2 (saveImageDeduped hash k1 bs B true).2 B true).1 = k2
    ∧ blobGet (saveImageDeduped hash k2 (saveImageDeduped hash k1 bs B true).2 B true).2 k1
        = some B
    ∧ blobGet (saveImageDeduped hash k2 (saveImageDeduped hash k1 bs B true).2 B true).2 k2
        = some B := by
  refine ⟨saveImageDeduped_fst_unique hash k1 bs B,
    saveImageDeduped_fst_unique hash k2 _ B, ?_, ?_⟩
  · rw [saveImageDeduped_snd_unique, saveImageDeduped_snd_unique,
      blobGet_blobPut_ne _ k2 k1 B (Ne.symm hne), blobGet_blobPut_self]
  · rw [saveImageDeduped_snd_unique, blobGet_blobPut_self]

/-- C7 witness: two unique saves of `"B"` under keys `"u1"`, `"u2"`. -/
theorem putUnique_noCollision_witness :
    blobGet (saveImageDeduped hash0 "u2" (saveImageDeduped hash0 "u1" [] "B" true).2 "B" true).2 "u1"
        = some "B"
    ∧ blobGet (saveImageDeduped hash0 "u2" (saveImageDeduped hash0 "u1" [] "B" true).2 "B" true).2 "u2"
        = some "B" :=
  ⟨(putUnique_noCollision hash0 "u1" "u2" "B" [] (by decide)).2.2.1,
   (putUnique_noCollision hash0 "u1" "u2" "B" [] (by decide)).2.2.2⟩

end CoverDB

namespace CoverDB

/-! ### C8: comment isolation -/

/-- C8: for an existing run id, `updateRunComment` touches nothing but
the `human_comment` column of the rows with that id: the image store and
the id counter are unchanged, the table keeps its length, every row with
a different id is unchanged, and a row with the given id keeps every
column except `human_comment`, which becomes the new comment. -/
theorem updateComment_only_comment (s : DBState) (rid : Nat) (c : String)
    (_hex : ∃ r ∈ s.runs, r.id = rid) :
    (updateRunComment s rid c).blobs = s.blobs
    ∧ (updateRunComment s rid c).nextId = s.nextId
    ∧ (updateRunComment s rid c).runs.length = s.runs.length
    ∧ ∀ (i : Nat) (r r2 : Row), s.runs[i]? = some r → (updateRunComment s rid c).runs[i]? = some r2 →
        (r.id ≠ rid → r2 = r)
        ∧ (r.id = rid →
            r2.human_comment = some c
            ∧ r2.id = r.id ∧ r2.created_at = r.created_at ∧ r2.model_id = r.model_id
            ∧ r2.model_label = r.model_label ∧ r2.prompt_template = r.prompt_template
            ∧ r2.compiled_prompt = r.compiled_prompt ∧ r2.new_title = r.new_title
            ∧ r2.input_image_id = r.input_image_id ∧ r2.output_image_id = r.output_image_id
            ∧ r2.served_by = r.served_by ∧ r2.route = r.route
            ∧ r2.prompt_tokens = r.prompt_tokens ∧ r2.completion_tokens = r.completion_tokens
            ∧ r2.total_tokens = r.total_tokens ∧ r2.cost = r.cost
            ∧ r2.duration_ms = r.duration_ms) := by
  refine ⟨rfl, rfl, by simp [updateRunComment], ?_⟩
  intro i r r2 h1 h2
  simp only [updateRunComment, List.getElem?_map, h1, Option.map_some'] at h2
  injection h2 with h2
  constructor
  · intro hne
    rw [if_neg hne] at h2
    exact h2.symm
  · intro heq
    rw [if_pos heq] at h2
    subst h2
    simp

end CoverDB

namespace CoverDB

/-- C8 witness: updating the comment of run 1 in the two-run state
leaves row 2 and all blobs as they were. -/
theorem updateComment_only_comment_witness :
    (updateRunComment sTwo 1 "note").blobs = sTwo.blobs
    ∧ (updateRunComment sTwo 1 "note").nextId = sTwo.nextId
    ∧ (updateRunComment sTwo 1 "note").runs.length = sTwo.runs.length :=
  let h := updateComment_only_comment sTwo 1 "note" ⟨mkRow 1 "T" "i" "o1", by decide, by decide⟩
  ⟨h.1, h.2.1, h.2.2.1⟩

/-! ### C10: updateRunComment on a missing id -/

theorem map_comment_eq_self (l : List Row) (rid : Nat) (c : String)
    (h : ∀ r ∈ l, r.id ≠ rid) :
    l.map (fun r => if r.id = rid then { r with human_comment := some c } else r) = l := by
  induction l with
  | nil => rfl
  | cons a t ih =>
    have ha : a.id ≠ rid := h a (by simp)
    have ht : ∀ r ∈ t, r.id ≠ rid := fun r hr => h r (by simp [hr])
    simp [if_neg ha, ih ht]

/-- C10: `updateRunComment` with an id matching no row completes without
error (the `UPDATE` simply matches nothing), leaves every row, the image
store and the id counter unchanged, and still flushes a snapshot of the
unchanged table. -/
theorem updateComment_missing_id (s : DBState) (rid : Nat) (c : String)
    (habs : ∀ r ∈ s.runs, r.id ≠ rid) :
    (updateRunComment s rid c).runs = s.runs
    ∧ (updateRunComment s rid c).blobs = s.blobs
    ∧ (updateRunComment s rid c).nextId = s.nextId
    ∧ (updateRunComment s rid c).snapshot = some s.runs := by
  have hmap := map_comment_eq_self s.runs rid c habs
  exact ⟨by simp [updateRunComment, hmap], rfl, rfl, by simp [updateRunComment, hmap]⟩

/-- C10 witness: id 5 matches no row of the two-run state. -/
theorem updateComment_missing_id_witness :
    (updateRunComment sTwo 5 "note").runs = sTwo.runs
    ∧ (updateRunComment sTwo 5 "note").snapshot = some sTwo.runs :=
  let h := updateComment_missing_id sTwo 5 "note" (by decide)
  ⟨h.1, h.2.2.2⟩

/-! ### C2: getRuns ordering -/

/-- C2 counterexample: the query `ORDER BY created_at DESC` applies no
id tiebreak.  In the two-run state whose rows share one `created_at`,
`getRuns` returns the rows in table order (id 1 before id 2), so the
claimed invariant — earlier row strictly newer, or equal timestamp and
strictly greater id — fails. -/
theorem getRuns_tiebreak_counterexample :
    ¬ List.Pairwise (fun a b : Row => textLt b.created_at a.created_at = true ∨
        (a.created_at = b.created_at ∧ b.id < a.id)) (getRuns sTwo) := by decide

/-- C2 (amended): `getRuns` returns exactly the rows of the table,
ordered by `created_at` descending (no later row's timestamp exceeds an
earlier one's); rows with equal timestamps carry no id tiebreak and
appear in table order. -/
theorem getRuns_sorted_desc (s : DBState) :
    List.Pairwise rowGE (getRuns s) ∧ (getRuns s).Perm s.runs :=
  ⟨List.sorted_insertionSort rowGE s.runs, List.perm_insertionSort rowGE s.runs⟩

end CoverDB


namespace CoverDB

/-! ### C4: blob-write failure during saveRun inserts no row -/

theorem saveImageDedupedE_unique_eq (hash : String → String) (fk : String) (w : Bool)
    (bs : Blobs) (d : String) :
    saveImageDedupedE hash fk w bs d true
      = if w then Except.ok (fk, blobPut bs fk d) else Except.error bs := by
  cases w <;> simp [saveImageDedupedE]

theorem saveImageDedupedE_dedup_hit (hash : String → String) (fk : String) (w : Bool)
    (bs : Blobs) (d : String) (h : imageExists bs (hash d) = true) :
    saveImageDedupedE hash fk w bs d false = Except.ok (hash d, bs) := by
  simp [saveImageDedupedE, h]

theorem saveImageDedupedE_dedup_miss (hash : String → String) (fk : String) (w : Bool)
    (bs : Blobs) (d : String) (h : imageExists bs (hash d) = false) :
    saveImageDedupedE hash fk w bs d false
      = if w then Except.ok (hash d, blobPut bs (hash d) d) else Except.error bs := by
  cases w <;> simp [saveImageDedupedE, h]

/-- With both transactions committing, the fallible model agrees with
`saveRun`. -/
theorem saveRunE_all_ok (hash : String → String) (outKey : String) (s : DBState)
    (run : RunInsert) :
    saveRunE hash outKey true true s run = Except.ok (saveRun hash outKey s run) := by
  rcases h : imageExists s.blobs (hash run.inputImage) with _ | _
  · have h1 := saveImageDedupedE_dedup_miss hash "" true s.blobs run.inputImage h
    rw [if_pos rfl] at h1
    have h2 := saveImageDeduped_dedup_miss hash "" s.blobs run.inputImage h
    simp [saveRunE, saveRun, h1, h2, saveImageDedupedE_unique_eq,
      saveImageDeduped_fst_unique, saveImageDeduped_snd_unique]
  · have h1 := saveImageDedupedE_dedup_hit hash "" true s.blobs run.inputImage h
    have h2 := saveImageDeduped_dedup_hit hash "" s.blobs run.inputImage h
    simp [saveRunE, saveRun, h1, h2, saveImageDedupedE_unique_eq,
      saveImageDeduped_fst_unique, saveImageDeduped_snd_unique]

/-- C4: whenever `saveRun` fails on a blob write — the output write
transaction failing, or the input write transaction failing with the
input not already deduplicated — the error propagates and the `runs`
table, the snapshot and the id counter are exactly as before the call:
no metadata row is inserted. -/
theorem saveRun_failure_no_row (hash : String → String) (outKey : String) (inOk outOk : Bool)
    (s : DBState) (run : RunInsert) :
    (∀ sErr, saveRunE hash outKey inOk outOk s run = Except.error sErr →
        sErr.runs = s.runs ∧ sErr.snapshot = s.snapshot ∧ sErr.nextId = s.nextId)
    ∧ (outOk = false → ∃ sErr, saveRunE hash outKey inOk outOk s run = Except.error sErr)
    ∧ (inOk = false → imageExists s.blobs (hash run.inputImage) = false →
        ∃ sErr, saveRunE hash outKey inOk outOk s run = Except.error sErr) := by
  refine ⟨?_, ?_, ?_⟩
  · intro sErr hE
    cases hm1 : saveImageDedupedE hash "" inOk s.blobs run.inputImage false with
    | error bs1 =>
      cases hm2 : saveImageDedupedE hash outKey outOk bs1 run.outputImage true with
      | error bs2 =>
        simp only [saveRunE, hm1, hm2] at hE
        injection hE with hE
        rw [← hE]
        exact ⟨rfl, rfl, rfl⟩
      | ok p2 =>
        simp only [saveRunE, hm1, hm2] at hE
        injection hE with hE
        rw [← hE]
        exact ⟨rfl, rfl, rfl⟩
    | ok p1 =>
      cases hm2 : saveImageDedupedE hash outKey outOk p1.2 run.outputImage true with
      | error bs2 =>
        simp only [saveRunE, hm1, hm2] at hE
        injection hE with hE
        rw [← hE]
        exact ⟨rfl, rfl, rfl⟩
      | ok p2 =>
        simp only [saveRunE, hm1, hm2] at hE
        exact absurd hE (by simp)
  · intro h
    subst h
    cases hm1 : saveImageDedupedE hash "" inOk s.blobs run.inputImage false with
    | error bs1 =>
      exact ⟨{ s with blobs := bs1 },
        by simp [saveRunE, hm1, saveImageDedupedE_unique_eq]⟩
    | ok p1 =>
      exact ⟨{ s with blobs := p1.2 },
        by simp [saveRunE, hm1, saveImageDedupedE_unique_eq]⟩
  · intro hIn hMiss
    subst hIn
    have h1 := saveImageDedupedE_dedup_miss hash "" false s.blobs run.inputImage hMiss
    rw [if_neg (by simp)] at h1
    cases outOk with
    | true =>
      exact ⟨{ s with blobs := blobPut s.blobs outKey run.outputImage },
        by simp [saveRunE, h1, saveImageDedupedE_unique_eq]⟩
    | false =>
      exact ⟨{ s with blobs := s.blobs },
        by simp [saveRunE, h1, saveImageDedupedE_unique_eq]⟩

/-- C4 witness: output write fails on the fresh store — `saveRunE`
errors and the error state still has the empty table. -/
theorem saveRun_failure_no_row_witness :
    ∃ sErr, saveRunE hash0 "o1" true false initState run0 = Except.error sErr :=
  (saveRun_failure_no_row hash0 "o1" true false initState run0).2.1 rfl

end CoverDB

namespace CoverDB

/-! ### C9: a failed deleteRun and the run history -/

/-- With all transactions committing, the fallible model agrees with
`deleteRun`. -/
theorem deleteRunE_all_ok (s : DBState) (rid : Nat) :
    deleteRunE true true true s rid = Except.ok (deleteRun s rid) := by
  cases hm : getRunById s rid with
  | none => simp [deleteRunE, deleteRun, hm]
  | some run =>
    simp only [deleteRunE, deleteRun, hm]
    by_cases hc : countOtherInputRefs s run.input_image_id rid = 0 <;> simp [hc]

/-- The error state produced by the C9 counterexample: the row is
already gone from the table when the output-blob delete fails. -/
def sErrDel : DBState :=
  { runs := [mkRow 2 "T" "i" "o2"], nextId := 3, blobs := sTwo.blobs,
    snapshot := some [mkRow 2 "T" "i" "o2"] }

/-- C9 counterexample: in the two-run state, deleting run 1 with the
output-blob delete transaction failing makes `deleteRun` propagate an
error, yet the metadata row of run 1 has already been removed — the run
history is not "exactly as it was before the call". -/
theorem deleteRun_failure_counterexample :
    deleteRunE true false true sTwo 1 = Except.error sErrDel
    ∧ sErrDel.runs ≠ sTwo.runs := by
  constructor
  · rfl
  · decide

/-- C9 (amended): every failure point of `deleteRun` (the snapshot
flush and the two blob deletes) comes after the in-memory row deletion,
so when `deleteRun` fails, all rows other than the one with the given
id are exactly as before, but the row with the given id has already
been deleted; the id counter is unchanged. -/
theorem deleteRun_failure_partial (fOk dOk iOk : Bool) (s : DBState) (rid : Nat) :
    ∀ sErr, deleteRunE fOk dOk iOk s rid = Except.error sErr →
      sErr.runs = s.runs.filter (fun r => r.id ≠ rid)
      ∧ sErr.nextId = s.nextId
      ∧ ∀ r ∈ s.runs, r.id ≠ rid → r ∈ sErr.runs := by
  intro sErr hE
  have hmem : sErr.runs = s.runs.filter (fun r => r.id ≠ rid) → ∀ r ∈ s.runs, r.id ≠ rid →
      r ∈ sErr.runs := by
    intro h r hr hne
    rw [h]
    simp [List.mem_filter, hr, hne]
  cases hm : getRunById s rid with
  | none =>
    simp [deleteRunE, hm] at hE
  | some run =>
    cases fOk with
    | false =>
      simp only [deleteRunE, hm, if_pos rfl] at hE
      injection hE with hE
      have h1 : sErr.runs = s.runs.filter (fun r => r.id ≠ rid) := by rw [← hE]
      exact ⟨h1, by rw [← hE], hmem h1⟩
    | true =>
      simp only [deleteRunE, hm, if_neg (by simp : ¬ (true = false))] at hE
      by_cases hok : dOk = true ∧ (¬ countOtherInputRefs s run.input_image_id rid = 0 ∨ iOk = true)
      · rw [if_pos hok] at hE
        exact absurd hE (by simp)
      · rw [if_neg hok] at hE
        injection hE with hE
        have h1 : sErr.runs = s.runs.filter (fun r => r.id ≠ rid) := by rw [← hE]
        exact ⟨h1, by rw [← hE], hmem h1⟩

/-- C9 amended-claim witness: the counterexample input instantiates the
amended theorem — the surviving row 2 is untouched. -/
theorem deleteRun_failure_partial_witness :
    sErrDel.runs = sTwo.runs.filter (fun r => r.id ≠ 1)
    ∧ sErrDel.nextId = sTwo.nextId :=
  let h := deleteRun_failure_partial true false true sTwo 1 sErrDel rfl
  ⟨h.1, h.2.1⟩

end CoverDB

namespace CoverDB

/-! ### C1: the deleteRun algorithm and its liveness consequences -/

/-- C1: `deleteRun` follows the read / count-others / delete-row /
flush / delete-output / conditionally-delete-input algorithm: an absent
id leaves the state untouched; a present id yields exactly the state
with the row filtered out, the snapshot reflushed, the output blob
deleted and the input blob deleted if and only if no other row shares
it.  Consequently (third conjunct) deleting a run whose input key
another surviving run shares leaves that input blob exactly as it was,
and (fourth conjunct) deleting the last run referencing an input key
removes that blob. -/
theorem deleteRun_algorithm (s : DBState) (rid : Nat) :
    (getRunById s rid = none → deleteRun s rid = s)
    ∧ (∀ run, getRunById s rid = some run →
        deleteRun s rid =
          { runs := s.runs.filter (fun r => r.id ≠ rid),
            nextId := s.nextId,
            blobs :=
              if countOtherInputRefs s run.input_image_id rid = 0 then
                blobDelete (blobDelete s.blobs run.output_image_id) run.input_image_id
              else blobDelete s.blobs run.output_image_id,
            snapshot := some (s.runs.filter (fun r => r.id ≠ rid)) })
    ∧ (∀ run r2, getRunById s rid = some run → r2 ∈ s.runs → r2.id ≠ rid →
        r2.input_image_id = run.input_image_id →
        run.output_image_id ≠ r2.input_image_id →
        blobGet (deleteRun s rid).blobs r2.input_image_id = blobGet s.blobs r2.input_image_id)
    ∧ (∀ run, getRunById s rid = some run →
        (∀ r2 ∈ s.runs, r2.id ≠ rid → r2.input_image_id ≠ run.input_image_id) →
        blobGet (deleteRun s rid).blobs run.input_image_id = none) := by
  refine ⟨?_, ?_, ?_, ?_⟩
  · intro h
    simp [deleteRun, h]
  · intro run hm
    simp only [deleteRun, hm]
  · intro run r2 hm hmem hne hinp houtne
    have hpos : ¬ countOtherInputRefs s run.input_image_id rid = 0 := by
      intro h0
      rw [countOtherInputRefs] at h0
      have hnil := List.length_eq_zero.mp h0
      have hmemf : r2 ∈ s.runs.filter
          (fun r => r.input_image_id = run.input_image_id ∧ r.id ≠ rid) := by
        rw [List.mem_filter]
        exact ⟨hmem, by simp [hinp, hne]⟩
      rw [hnil] at hmemf
      simp at hmemf
    simp only [deleteRun, hm, if_neg hpos]
    exact blobGet_blobDelete_ne s.blobs run.output_image_id r2.input_image_id houtne
  · intro run hm hnone
    have hc : countOtherInputRefs s run.input_image_id rid = 0 := by
      rw [countOtherInputRefs, List.length_eq_zero]
      refine List.filter_eq_nil_iff.mpr ?_
      intro r hr
      by_cases hid : r.id = rid
      · simp [hid]
      · simp [hid, hnone r hr hid]
    simp only [deleteRun, hm, if_pos hc]
    exact blobGet_blobDelete_self _ _

/-- C1 witness: in the two-run state deleting run 1 keeps the shared
input blob readable for run 2, and in the one-run state deleting run 1
removes its exclusively owned input blob. -/
theorem deleteRun_algorithm_witness :
    blobGet (deleteRun sTwo 1).blobs (mkRow 2 "T" "i" "o2").input_image_id
        = blobGet sTwo.blobs (mkRow 2 "T" "i" "o2").input_image_id
    ∧ blobGet (deleteRun sOne 1).blobs (mkRow 1 "T" "i" "o1").input_image_id = none :=
  ⟨(deleteRun_algorithm sTwo 1).2.2.1 (mkRow 1 "T" "i" "o1") (mkRow 2 "T" "i" "o2")
      (by decide) (by decide) (by decide) (by decide) (by decide),
   (deleteRun_algorithm sOne 1).2.2.2 (mkRow 1 "T" "i" "o1") (by decide) (by decide)⟩

end CoverDB

namespace CoverDB

/-! ### C3: saveRun / getRunById / loadImagesForRun round-trip -/

/-- Explicit form of `saveRun`: the assigned id, the appended row and
the two blob writes. -/
theorem saveRun_eq (hash : String → String) (outKey : String) (s : DBState)
    (run : RunInsert) :
    saveRun hash outKey s run =
      (s.nextId,
        { runs := s.runs ++ [rowOfInsert run s.nextId (hash run.inputImage) outKey],
          nextId := s.nextId + 1,
          blobs := blobPut (saveImageDeduped hash "" s.blobs run.inputImage false).2
                     outKey run.outputImage,
          snapshot := some (s.runs ++ [rowOfInsert run s.nextId (hash run.inputImage) outKey]) }) := by
  simp [saveRun, saveImageDeduped_fst_dedup, saveImageDeduped_fst_unique,
    saveImageDeduped_snd_unique]

/-- C3: for a valid `RunInsert` — valid meaning the table has no stray
row carrying the not-yet-assigned id, the content-addressed slot for
the input image holds no colliding foreign payload, and the generated
unique output key differs from the input's content hash, all of which
the real key formats guarantee — `saveRun` followed by `getRunById` on
the returned id yields a row whose metadata columns equal the inserted
fields, and `loadImagesForRun` on that row returns exactly the inserted
input and output payloads. -/
theorem saveRun_roundTrip (hash : String → String) (outKey : String) (s : DBState)
    (run : RunInsert)
    (hid : ∀ r ∈ s.runs, r.id ≠ s.nextId)
    (hnocol : ∀ v, blobGet s.blobs (hash run.inputImage) = some v → v = run.inputImage)
    (houtKey : outKey ≠ hash run.inputImage) :
    ∃ row, getRunById (saveRun hash outKey s run).2 (saveRun hash outKey s run).1 = some row
      ∧ row.created_at = run.createdAt ∧ row.model_id = run.modelId
      ∧ row.model_label = run.modelLabel ∧ row.prompt_template = run.promptTemplate
      ∧ row.compiled_prompt = run.compiledPrompt ∧ row.new_title = run.newTitle
      ∧ row.served_by = run.servedBy ∧ row.route = run.route
      ∧ row.prompt_tokens = run.promptTokens ∧ row.completion_tokens = run.completionTokens
      ∧ row.total_tokens = run.totalTokens ∧ row.cost = run.cost
      ∧ row.duration_ms = run.durationMs ∧ row.human_comment = run.humanComment
      ∧ loadImagesForRun (saveRun hash outKey s run).2.blobs row
          = (run.inputImage, run.outputImage) := by
  refine ⟨rowOfInsert run s.nextId (hash run.inputImage) outKey, ?_, rfl, rfl, rfl, rfl,
    rfl, rfl, rfl, rfl, rfl, rfl, rfl, rfl, rfl, rfl, ?_⟩
  · rw [saveRun_eq]
    have hfind1 : s.runs.find? (fun r => r.id == s.nextId) = none :=
      List.find?_eq_none.mpr (fun x hx => by simp [hid x hx])
    simp [getRunById, List.find?_append, hfind1, List.find?, rowOfInsert]
  · rw [saveRun_eq]
    simp only [loadImagesForRun, loadImage, rowOfInsert]
    rw [blobGet_blobPut_ne _ outKey (hash run.inputImage) _ houtKey,
      dedup_get_self, blobGet_blobPut_self]
    rcases hv : blobGet s.blobs (hash run.inputImage) with _ | v
    · simp [hv]
    · simp [hv, hnocol v hv]

/-- C3 witness: the round trip on the fresh store with payloads `"A"`
and `"B"`. -/
theorem saveRun_roundTrip_witness :
    ∃ row, getRunById (saveRun hash0 "o1" initState run0).2
        (saveRun hash0 "o1" initState run0).1 = some row
      ∧ row.created_at = run0.createdAt ∧ row.model_id = run0.modelId
      ∧ row.model_label = run0.modelLabel ∧ row.prompt_template = run0.promptTemplate
      ∧ row.compiled_prompt = run0.compiledPrompt ∧ row.new_title = run0.newTitle
      ∧ row.served_by = run0.servedBy ∧ row.route = run0.route
      ∧ row.prompt_tokens = run0.promptTokens ∧ row.completion_tokens = run0.completionTokens
      ∧ row.total_tokens = run0.totalTokens ∧ row.cost = run0.cost
      ∧ row.duration_ms = run0.durationMs ∧ row.human_comment = run0.humanComment
      ∧ loadImagesForRun (saveRun hash0 "o1" initState run0).2.blobs row
          = (run0.inputImage, run0.outputImage) :=
  saveRun_roundTrip hash0 "o1" initState run0 (by decide)
    (fun v hv => by simp [blobGet] at hv) (by decide)

end CoverDB

namespace CoverDB

/-! ### C5: referenced blobs exist in every reachable state -/

/-- Separation facts between two distinct rows that every reachable
table satisfies: distinct ids, and output keys private to their row
(an output key never doubles as another row's input or output key). -/
def RowsSeparated (a b : Row) : Prop :=
  a.id ≠ b.id
  ∧ a.output_image_id ≠ b.output_image_id
  ∧ a.output_image_id ≠ b.input_image_id
  ∧ b.output_image_id ≠ a.input_image_id

/-- The inductive invariant: every row's blob keys resolve, rows are
pairwise separated, and every id is below the AUTOINCREMENT counter. -/
def Inv (s : DBState) : Prop :=
  (∀ r ∈ s.runs, (blobGet s.blobs r.input_image_id).isSome
      ∧ (blobGet s.blobs r.output_image_id).isSome)
  ∧ s.runs.Pairwise RowsSeparated
  ∧ (∀ r ∈ s.runs, r.id < s.nextId)

theorem pairwise_either {R : Row → Row → Prop} {l : List Row} {a b : Row}
    (hp : l.Pairwise R) (ha : a ∈ l) (hb : b ∈ l) (hne : a ≠ b) : R a b ∨ R b a := by
  have hp2 : l.Pairwise (fun x y => R x y ∨ R y x) := hp.imp (fun h => Or.inl h)
  have hsym : Symmetric (fun x y : Row => R x y ∨ R y x) := fun x y h => h.symm
  exact hp2.forall hsym ha hb hne

theorem inv_init : Inv initState := by
  unfold Inv initState
  exact ⟨by simp, by simp, by simp⟩

theorem commentUpd_keys (rid : Nat) (c : String) (r : Row) :
    ((if r.id = rid then { r with human_comment := some c } else r).input_image_id
        = r.input_image_id)
    ∧ ((if r.id = rid then { r with human_comment := some c } else r).output_image_id
        = r.output_image_id)
    ∧ ((if r.id = rid then { r with human_comment := some c } else r).id = r.id) := by
  by_cases h : r.id = rid <;> simp [h]

theorem inv_update (s : DBState) (rid : Nat) (c : String) (hInv : Inv s) :
    Inv (updateRunComment s rid c) := by
  obtain ⟨hlive, hpair, hids⟩ := hInv
  unfold Inv updateRunComment
  refine ⟨?_, ?_, ?_⟩
  · intro r hr
    simp only [List.mem_map] at hr
    obtain ⟨r0, hr0, hre⟩ := hr
    obtain ⟨hk1, hk2, _⟩ := commentUpd_keys rid c r0
    rw [← hre, hk1, hk2]
    exact hlive r0 hr0
  · rw [List.pairwise_map]
    refine hpair.imp ?_
    intro a b hab
    obtain ⟨h1, h2, h3, h4⟩ := hab
    obtain ⟨ha1, ha2, ha3⟩ := commentUpd_keys rid c a
    obtain ⟨hb1, hb2, hb3⟩ := commentUpd_keys rid c b
    exact ⟨by rw [ha3, hb3]; exact h1, by rw [ha2, hb2]; exact h2,
      by rw [ha2, hb1]; exact h3, by rw [hb2, ha1]; exact h4⟩
  · intro r hr
    simp only [List.mem_map] at hr
    obtain ⟨r0, hr0, hre⟩ := hr
    obtain ⟨_, _, hk3⟩ := commentUpd_keys rid c r0
    rw [← hre, hk3]
    exact hids r0 hr0

theorem inv_save (hash : String → String) (outKey : String) (s : DBState) (run : RunInsert)
    (hInv : Inv s)
    (hfresh : outKey ∉ allKeys s)
    (hdisj : ∀ r ∈ s.runs, hash run.inputImage ≠ r.output_image_id) :
    Inv (saveRun hash outKey s run).2 := by
  obtain ⟨hlive, hpair, hids⟩ := hInv
  have hfresh2 : outKey ∉ (s.blobs.map (fun p => p.1)
      ++ s.runs.map Row.input_image_id ++ s.runs.map Row.output_image_id) := hfresh
  have hfreshIn : ∀ r ∈ s.runs, outKey ≠ r.input_image_id := by
    intro r hr heq
    exact hfresh2 (List.mem_append_left _
      (List.mem_append_right _ (List.mem_map.mpr ⟨r, hr, heq.symm⟩)))
  have hfreshOut : ∀ r ∈ s.runs, outKey ≠ r.output_image_id := by
    intro r hr heq
    exact hfresh2 (List.mem_append_right _ (List.mem_map.mpr ⟨r, hr, heq.symm⟩))
  have hruns : (saveRun hash outKey s run).2.runs
      = s.runs ++ [rowOfInsert run s.nextId (hash run.inputImage) outKey] := by
    rw [saveRun_eq]
  have hblobs : (saveRun hash outKey s run).2.blobs
      = blobPut (saveImageDeduped hash "" s.blobs run.inputImage false).2
          outKey run.outputImage := by
    rw [saveRun_eq]
  have hnext : (saveRun hash outKey s run).2.nextId = s.nextId + 1 := by
    rw [saveRun_eq]
  unfold Inv
  rw [hruns, hblobs, hnext]
  refine ⟨?_, ?_, ?_⟩
  · intro r hr
    rw [List.mem_append, List.mem_singleton] at hr
    rcases hr with hr | hr
    · obtain ⟨h1, h2⟩ := hlive r hr
      exact ⟨isSome_blobGet_blobPut _ outKey run.outputImage _
          (isSome_dedup hash "" s.blobs run.inputImage _ h1),
        isSome_blobGet_blobPut _ outKey run.outputImage _
          (isSome_dedup hash "" s.blobs run.inputImage _ h2)⟩
    · subst hr
      constructor
      · show (blobGet (blobPut _ outKey run.outputImage) (hash run.inputImage)).isSome
        apply isSome_blobGet_blobPut
        rw [dedup_get_self]
        rfl
      · show (blobGet (blobPut _ outKey run.outputImage) outKey).isSome
        rw [blobGet_blobPut_self]
        rfl
  · rw [List.pairwise_append]
    refine ⟨hpair, by simp, ?_⟩
    intro a ha b hb
    rw [List.mem_singleton] at hb
    subst hb
    refine ⟨Nat.ne_of_lt (hids a ha), ?_, ?_, ?_⟩
    · show a.output_image_id ≠ outKey
      exact (hfreshOut a ha).symm
    · show a.output_image_id ≠ hash run.inputImage
      exact (hdisj a ha).symm
    · show outKey ≠ a.input_image_id
      exact hfreshIn a ha
  · intro r hr
    rw [List.mem_append, List.mem_singleton] at hr
    rcases hr with hr | hr
    · exact Nat.lt_succ_of_lt (hids r hr)
    · subst hr
      exact Nat.lt_succ_self _

theorem inv_delete (s : DBState) (rid : Nat) (hInv : Inv s) : Inv (deleteRun s rid) := by
  obtain ⟨hlive, hpair, hids⟩ := hInv
  cases hm : getRunById s rid with
  | none =>
    simp only [deleteRun, hm]
    exact ⟨hlive, hpair, hids⟩
  | some run =>
    have hrunmem : run ∈ s.runs := List.mem_of_find?_eq_some hm
    have hrunid : run.id = rid := by
      have := List.find?_some hm
      simpa using this
    simp only [deleteRun, hm]
    unfold Inv
    refine ⟨?_, ?_, ?_⟩
    · intro r hr
      simp only [List.mem_filter, decide_not, Bool.not_eq_eq_eq_not, Bool.not_true,
        decide_eq_false_iff_not] at hr
      obtain ⟨hrmem, hrne⟩ := hr
      have hner : run ≠ r := fun he => hrne (he ▸ hrunid)
      have hsep : run.output_image_id ≠ r.input_image_id
          ∧ run.output_image_id ≠ r.output_image_id
          ∧ r.output_image_id ≠ run.input_image_id := by
        rcases pairwise_either hpair hrunmem hrmem hner with h | h
        · exact ⟨h.2.2.1, h.2.1, h.2.2.2⟩
        · exact ⟨h.2.2.2, (h.2.1).symm, h.2.2.1⟩
      obtain ⟨hs1, hs2, hs3⟩ := hsep
      obtain ⟨hl1, hl2⟩ := hlive r hrmem
      by_cases hc : countOtherInputRefs s run.input_image_id rid = 0
      · have hrin : run.input_image_id ≠ r.input_image_id := by
          intro he
          rw [countOtherInputRefs, List.length_eq_zero] at hc
          have hmemf : r ∈ s.runs.filter
              (fun x => x.input_image_id = run.input_image_id ∧ x.id ≠ rid) := by
            rw [List.mem_filter]
            exact ⟨hrmem, by simp [he.symm, hrne]⟩
          rw [hc] at hmemf
          simp at hmemf
        rw [if_pos hc]
        constructor
        · rw [blobGet_blobDelete_ne _ _ _ hrin, blobGet_blobDelete_ne _ _ _ hs1]
          exact hl1
        · rw [blobGet_blobDelete_ne _ _ _ (Ne.symm hs3), blobGet_blobDelete_ne _ _ _ hs2]
          exact hl2
      · rw [if_neg hc]
        constructor
        · rw [blobGet_blobDelete_ne _ _ _ hs1]
          exact hl1
        · rw [blobGet_blobDelete_ne _ _ _ hs2]
          exact hl2
    · exact List.Pairwise.sublist (List.filter_sublist _) hpair
    · intro r hr
      simp only [List.mem_filter] at hr
      exact hids r hr.1

theorem reachable_inv (hash : String → String) :
    ∀ s : DBState, Reachable hash s → Inv s := by
  intro s h
  induction h with
  | init => exact inv_init
  | save s run outKey hr hfresh hdisj ih => exact inv_save hash outKey s run ih hfresh hdisj
  | update s rid c hr ih => exact inv_update s rid c ih
  | del s rid hr ih => exact inv_delete s rid ih

/-- C5: in every state reachable from the fresh store by any sequence
of the public mutating operations (`saveRun`, `updateRunComment`,
`deleteRun`), every row's `input_image_id` and `output_image_id`
resolve to blobs present in the image store. -/
theorem reachable_blob_liveness (hash : String → String) (s : DBState)
    (h : Reachable hash s) :
    ∀ r ∈ s.runs, (blobGet s.blobs r.input_image_id).isSome
      ∧ (blobGet s.blobs r.output_image_id).isSome :=
  (reachable_inv hash s h).1

/-- C5 witness: the state after one `saveRun` from the fresh store is
reachable and its single row's blobs resolve. -/
theorem reachable_blob_liveness_witness :
    (blobGet (saveRun hash0 "o1" initState run0).2.blobs
        (rowOfInsert run0 1 (hash0 "A") "o1").input_image_id).isSome
    ∧ (blobGet (saveRun hash0 "o1" initState run0).2.blobs
        (rowOfInsert run0 1 (hash0 "A") "o1").output_image_id).isSome :=
  reachable_blob_liveness hash0 _
    (Reachable.save initState run0 "o1" Reachable.init (by decide) (by decide))
    (rowOfInsert run0 1 (hash0 "A") "o1") (by decide)

end CoverDB
